import Mathlib

/-!
Verification of the structured-lesson-to-Markdown rendering engine of
`parser.mjs` (function `fetchLessonAndParse` and its helpers
`convertKatexToMarkdown` and `fixLatex`).

The JavaScript source is shallowly embedded: each renderer branch of the
dispatch loop becomes a Lean function on an inductive `Component` payload,
JS string operations become executable functions on `String`
(`jsTrim`, `jsToLower`, `jsEndsWith`, ...), and the push statements of the
loop become entries of a `Push` list (recording which pushes happen inside a
renderer branch, bypassing the common trailing-newline step, via the
`direct` flag).  The external collaborators (the `turndown` HTML-to-Markdown
library and jsdom's HTML parser/serializer) are not code of this repository;
they enter as an abstract parameter record `ExtLibs`, and the inline-math
normalizer's own logic is modelled on an explicit DOM tree type `Node`.
The only failure the claims exercise (a `Quiz` whose content lacks
`questions`, which makes `quiz.questions.forEach` throw) is modelled by an
`Except` result.
-/

/-- Character-sequence suffix test, the semantics of JS `String.endsWith`. -/
def jsEndsWith (sfx s : String) : Bool := decide (sfx.data <:+ s.data)

/-- JS `String.trim`: drop whitespace from both ends. -/
def jsTrim (s : String) : String :=
  ⟨((s.data.dropWhile Char.isWhitespace).reverse.dropWhile Char.isWhitespace).reverse⟩

/-- JS `String.toLowerCase` (ASCII case mapping suffices for this corpus). -/
def jsToLower (s : String) : String := ⟨s.data.map Char.toLower⟩

/-- Concatenation of a list of strings, the accumulation pattern of the
repeated `markdown += ...` statements in the source. -/
def strJoin (l : List String) : String := l.foldr (· ++ ·) ""

/-- JS `String.replace` with a global single-character pattern: every
occurrence of `c` is replaced by the character list `repl`. -/
def jsReplaceChar (c : Char) (repl : List Char) (s : String) : String :=
  ⟨s.data.flatMap (fun ch => if ch = c then repl else [ch])⟩

/-- JS `.replace(/\\_/g, '_')` on the character list: every (non-overlapping,
left-to-right) occurrence of backslash-underscore becomes an underscore. -/
def unescapeUnderscoreAux : List Char → List Char
  | '\\' :: '_' :: rest => '_' :: unescapeUnderscoreAux rest
  | c :: rest => c :: unescapeUnderscoreAux rest
  | [] => []

/-- `turndown(...).replace(/\\_/g, '_')` post-processing (parser.mjs line 96). -/
def unescapeUnderscore (s : String) : String := ⟨unescapeUnderscoreAux s.data⟩

/-- `fixLatex` (parser.mjs lines 70-72):
``return `$$${text.replace(/\\/g, '\\').replace(/\n/g, '')}$$\n`;`` -/
def fixLatex (text : String) : String :=
  "$$" ++ jsReplaceChar '\n' [] (jsReplaceChar '\\' ['\\'] text) ++ "$$\n"

/-!  ## DOM model for the inline-math normalizer (`convertKatexToMarkdown`)

`convertKatexToMarkdown` (parser.mjs lines 59-68) parses an HTML fragment
with jsdom, rewrites every `katex` element, and serializes the body again.
Parsing and serialization belong to jsdom; the rewriting logic is the
repository's and is modelled on an explicit DOM tree. -/

/-- A DOM node: an element with a tag, an attribute list and children, or a
text node. -/
inductive Node where
  | text (s : String)
  | elem (tag : String) (attrs : List (String × String)) (children : List Node)

/-- `getAttribute a` on an attribute list (first binding wins, as duplicate
attributes cannot occur in parsed HTML). -/
def getAttr (a : String) (attrs : List (String × String)) : Option String :=
  (attrs.find? (fun p => p.1 = a)).map (fun p => p.2)

mutual

/-- `Node.textContent`: concatenation of all descendant text. -/
def textContent : Node → String
  | .text s => s
  | .elem _ _ cs => textContentList cs

/-- `textContent` of a forest, in document order. -/
def textContentList : List Node → String
  | [] => ""
  | n :: ns => textContent n ++ textContentList ns

end

mutual

/-- `element.querySelector('[equation]')` restricted to what the source
reads from it: the `equation` attribute value of the first element, in
document (pre-order) order, that carries an `equation` attribute.  A
`querySelector` call searches descendants only, so this function is applied
to the children forest of the `katex` element. -/
def findEqNode : Node → Option String
  | .text _ => none
  | .elem _ attrs cs =>
    match getAttr "equation" attrs with
    | some v => some v
    | none => findEqList cs

/-- Pre-order search of a forest for the first `equation` attribute. -/
def findEqList : List Node → Option String
  | [] => none
  | n :: ns =>
    match findEqNode n with
    | some v => some v
    | none => findEqList ns

end

mutual

/-- The rewriting pass of `convertKatexToMarkdown` on one node:
every `katex` element is replaced (in document order, so an outer `katex`
element wins over a nested one, matching the behaviour of `replaceWith` on
nodes detached by an earlier replacement) by the text node
`` `$${eqText}$` `` where, as in the source,
`eqText = equation?.getAttribute('equation') || katex.textContent.trim()`. -/
def convertNode : Node → Node
  | .text s => .text s
  | .elem tag attrs cs =>
    if tag = "katex" then
      .text ("$" ++
        (match findEqList cs with
         | some v => if v = "" then jsTrim (textContentList cs) else v
         | none => jsTrim (textContentList cs)) ++ "$")
    else
      .elem tag attrs (convertNodeList cs)

/-- The rewriting pass on a forest (the children of `document.body`). -/
def convertNodeList : List Node → List Node
  | [] => []
  | n :: ns => convertNode n :: convertNodeList ns

end

/-!  ## Component payloads (the `x.content` shapes read by the dispatch loop)

JS fields that the source only uses through `|| <default>` (string truthiness)
are modelled as plain `String`s, `""` standing for both the empty string and
an absent field — the source cannot distinguish the two.  Fields whose
absence the source distinguishes observably are `Option`s
(`Quiz.questions`, whose absence crashes `quiz.questions.forEach`). -/

/-- A sub-component of a `Columns` component (parser.mjs lines 133-141):
only the `MarkdownEditor` sub-type contributes text. -/
inductive SubComp where
  | markdownEditor (text : String)
  | otherSub (ty : String)

/-- One quiz question: `questionText` and `questionOptions` (text, correct). -/
structure QuizQ where
  questionText : String
  questionOptions : List (String × Bool)

/-- One loader entry value of `x.content.loaders` for `WebpackBin`. -/
structure Loader where
  enabled : Bool
  title : String

/-- One node of the `WebpackBin` file tree `x.content.codeContents.children`:
`module`, a `leaf` flag, `data.content`, `data.language` and `children`. -/
inductive BinNode where
  | mk (module : String) (leaf : Bool) (content : String) (language : String)
       (children : List BinNode)

/-- A collected file of the `WebpackBin` traversal. -/
structure BinFile where
  fileName : String
  code : String
  language : String
deriving DecidableEq

/-- `WebpackBin` payload. -/
structure WebpackContent where
  loaders : List (String × Loader)
  children : List BinNode
  evaluationContent : String
  dockerJobName : String

/-- One `MatchTheAnswers` pair: `left.text`, `right.text`, `explanation`. -/
structure MatchPair where
  left : String
  right : String
  explanation : String

/-- One `Permutation` option: `hashid` and `content.data`. -/
structure POption where
  hashid : String
  data : String
deriving DecidableEq

/-- One language block of `CodeTest.languageContents`:
`mainFileName` and `codeContents.content`. -/
structure LangBlock where
  mainFileName : String
  mainContent : String

/-- `CodeTest` payload: caption, per-language blocks, per-language extra
files (file name to `codeContents.content`), and the optional solution. -/
structure CodeTestContent where
  caption : String
  languageContents : List (String × LangBlock)
  additionalFiles : List (String × List (String × String))
  solutionLanguage : String
  solutionContent : String

/-- The tagged union of content blocks dispatched by the loop of
`fetchLessonAndParse` (parser.mjs lines 92-302).  `other ty` stands for a
component whose `type` string `ty` matches none of the handled branches. -/
inductive Component where
  | slateHTML (html : String)
  | tableHTML (html : String)
  | latex (text : String)
  | markdownEditor (text : String)
  | code (language caption content solutionContent : String) (showSolution : Bool)
  | promptAI
  | lazyLoadPlaceholder
  | notepad
  | drawIOWidget
  | columns (comps : List SubComp)
  | quiz (title : Option String) (questions : Option (List QuizQ))
  | webpackBin (w : WebpackContent)
  | matchTheAnswers (pairs : List MatchPair)
  | table (data : List (List String))
  | permutation (questionStatement : String) (options : List POption)
      (protectedContent : List String)
  | codeTest (c : CodeTestContent)
  | other (ty : String)

/-- The JS `type` string of a component. -/
def Component.ctype : Component → String
  | .slateHTML _ => "SlateHTML"
  | .tableHTML _ => "TableHTML"
  | .latex _ => "Latex"
  | .markdownEditor _ => "MarkdownEditor"
  | .code _ _ _ _ _ => "Code"
  | .promptAI => "PromptAI"
  | .lazyLoadPlaceholder => "LazyLoadPlaceholder"
  | .notepad => "Notepad"
  | .drawIOWidget => "DrawIOWidget"
  | .columns _ => "Columns"
  | .quiz _ _ => "Quiz"
  | .webpackBin _ => "WebpackBin"
  | .matchTheAnswers _ => "MatchTheAnswers"
  | .table _ => "Table"
  | .permutation _ _ _ => "Permutation"
  | .codeTest _ => "CodeTest"
  | .other ty => ty

/-- The type strings that have their own branch in the dispatch chain;
`other ty` is only a faithful model when `ty` is none of these. -/
def handledTypes : List String :=
  ["SlateHTML", "TableHTML", "Latex", "MarkdownEditor", "Code", "PromptAI",
   "LazyLoadPlaceholder", "Notepad", "DrawIOWidget", "Columns", "Quiz",
   "WebpackBin", "MatchTheAnswers", "Table", "Permutation", "CodeTest"]

/-- The external collaborators of the renderer: the `turndown`
HTML-to-Markdown engine and the string-level view of
`convertKatexToMarkdown` (jsdom parse, DOM rewrite, serialize).  Both are
outside this repository's code, so they are abstract parameters. -/
structure ExtLibs where
  td : String → String
  ckm : String → String

/-!  ## Block renderers (one per handled branch of the dispatch chain) -/

/-- The `Code` branch (parser.mjs lines 102-117). -/
def renderCode (language caption content solutionContent : String)
    (showSolution : Bool) : String :=
  let captionPart := if caption = "" then "" else "**" ++ caption ++ "**\n\n"
  let base := captionPart ++ "```" ++ language ++ "\n" ++ jsTrim content ++ "\n```\n"
  if showSolution ∧ jsTrim solutionContent ≠ "" then
    base ++ "<details>\n<summary> Solution</summary>\n\n" ++
      ("```" ++ language ++ "\n" ++ jsTrim solutionContent ++ "\n```\n</details>\n")
  else base

/-- Spec wording (§4.3 Code, §8): the learner part — optional bold caption
line, then a fenced block with the trimmed learner code. -/
def codeLearnerPart (language caption content : String) : String :=
  (if caption = "" then "" else "**" ++ caption ++ "**\n\n") ++
    "```" ++ language ++ "\n" ++ jsTrim content ++ "\n```\n"

/-- Spec wording (§4.3 Code, §8): the collapsible "Solution" section with a
fenced block containing the trimmed solution code. -/
def codeSolutionPart (language solutionContent : String) : String :=
  "<details>\n<summary> Solution</summary>\n\n" ++
    ("```" ++ language ++ "\n" ++ jsTrim solutionContent ++ "\n```\n</details>\n")

/-- The `Columns` branch (parser.mjs lines 133-141). -/
def renderColumns (comps : List SubComp) : String :=
  strJoin (comps.map (fun c =>
    match c with
    | .markdownEditor t => t ++ "\n\n"
    | .otherSub _ => ""))

/-- The `Quiz` branch body (parser.mjs lines 142-156), for a quiz whose
`questions` field is present. -/
def renderQuizBody (title : Option String) (questions : List QuizQ) : String :=
  "### Quiz: " ++ title.getD "" ++ "\n\n" ++
  strJoin (questions.enum.map (fun p =>
    "**Q" ++ toString (p.1 + 1) ++ ": " ++ p.2.questionText ++ "**\n" ++
    strJoin (p.2.questionOptions.map (fun o =>
      "- " ++ (if o.2 then "[x]" else "[ ]") ++ " " ++ o.1 ++ "\n")) ++ "\n"))

mutual

/-- The recursive file-tree walk of the `WebpackBin` branch
(parser.mjs lines 169-183), collecting leaf files in traversal order. -/
def traverseBinNode : BinNode → List BinFile
  | .mk moduleName leaf content language children =>
    if leaf ∧ content ≠ "" then
      [⟨moduleName, content, if language = "" then "javascript" else language⟩]
    else traverseBinList children

/-- The walk over a children list. -/
def traverseBinList : List BinNode → List BinFile
  | [] => []
  | n :: ns => traverseBinNode n ++ traverseBinList ns

end

/-- One collected file's collapsible section (parser.mjs line 186). -/
def binFilePart (f : BinFile) : String :=
  "\n<details>\n<summary>" ++ f.fileName ++ "</summary>\n\n```" ++ f.language ++
    "\n" ++ f.code ++ "\n```\n</details>\n"

/-- The `WebpackBin` branch (parser.mjs lines 158-199), producing the
fragment that the branch pushes directly. -/
def renderWebpackBin (w : WebpackContent) : String :=
  "### WebpackBin Playground\n" ++
  (match w.loaders.find? (fun p => p.2.enabled) with
   | some p => "**Environment:** " ++ p.2.title ++ "\n\n"
   | none => "") ++
  strJoin ((traverseBinList w.children).map binFilePart) ++
  (if w.evaluationContent = "" then "" else
    "\n<details>\n<summary>🔍 Evaluation Code</summary>\n\n```javascript\n" ++
      w.evaluationContent ++ "\n```\n</details>\n") ++
  (if w.dockerJobName = "" then "" else
    "\n_This widget runs in a **Live Docker container**: `" ++
      w.dockerJobName ++ "`_\n")

/-- The `MatchTheAnswers` branch (parser.mjs lines 202-215). -/
def renderMatch (pairs : List MatchPair) : String :=
  "### Match the Answers\n\n" ++
  strJoin (pairs.enum.map (fun p =>
    (let left := if jsTrim p.2.left = "" then "—" else jsTrim p.2.left
     let right := if jsTrim p.2.right = "" then "None provided" else jsTrim p.2.right
     "**" ++ toString (p.1 + 1) ++ ".** " ++ left ++ "\n Match: *" ++ right ++ "*\n\n") ++
    (if p.2.explanation = "" then "" else
      "> Explanation: " ++ p.2.explanation ++ "\n\n")))

/-- The `Table` branch (parser.mjs lines 216-233); `td` is the external
`turndown` conversion applied to each cell. -/
def renderTable (td : String → String) (rows : List (List String)) : String :=
  match rows with
  | [] => ""
  | headerRow :: rest =>
    let headerCells := headerRow.map (fun cell => jsTrim (td cell))
    let header := "| " ++ String.intercalate " | " headerCells ++ " |"
    let divider := "| " ++ String.intercalate " | " (headerCells.map (fun _ => "---")) ++ " |"
    let body := rest.map (fun row =>
      "| " ++ String.intercalate " | " (row.map (fun c => jsTrim (td c))) ++ " |")
    header ++ "\n" ++ divider ++ "\n" ++ String.intercalate "\n" body ++ "\n"

/-- `opt.content?.data?.trim() || '—'` for one `Permutation` option. -/
def optText (o : POption) : String :=
  if jsTrim o.data = "" then "—" else jsTrim o.data

/-- The own properties of `Object.prototype` that a JS property read on a
plain object (such as the result of `Object.fromEntries`) reaches through
the prototype chain when no own property exists, paired with the string
each inherited value turns into inside a template literal in Node (V8):
the methods print as `function name() \x7b [native code] \x7d`, and the
`__proto__` accessor returns `Object.prototype` itself, which prints as
`[object Object]`. -/
def objectProtoProps : List (String × String) :=
  [("constructor", "function Object() \x7b [native code] \x7d"),
   ("hasOwnProperty", "function hasOwnProperty() \x7b [native code] \x7d"),
   ("isPrototypeOf", "function isPrototypeOf() \x7b [native code] \x7d"),
   ("propertyIsEnumerable", "function propertyIsEnumerable() \x7b [native code] \x7d"),
   ("toLocaleString", "function toLocaleString() \x7b [native code] \x7d"),
   ("toString", "function toString() \x7b [native code] \x7d"),
   ("valueOf", "function valueOf() \x7b [native code] \x7d"),
   ("__defineGetter__", "function __defineGetter__() \x7b [native code] \x7d"),
   ("__defineSetter__", "function __defineSetter__() \x7b [native code] \x7d"),
   ("__lookupGetter__", "function __lookupGetter__() \x7b [native code] \x7d"),
   ("__lookupSetter__", "function __lookupSetter__() \x7b [native code] \x7d"),
   ("__proto__", "[object Object]")]

/-- The prototype-chain step of a JS property read on a plain object: the
stringified inherited `Object.prototype` member for its property names,
`none` (JS `undefined`) for every other absent key. -/
def objectProtoLookup (k : String) : Option String :=
  (objectProtoProps.find? (fun p => p.1 = k)).map (fun p => p.2)

/-- `idToTextMap[hashId] || '(missing)'` where `idToTextMap` is
`Object.fromEntries(options.map(opt => [opt.hashid, opt.content?.data?.trim() || '—']))`
(parser.mjs lines 248-256).  `Object.fromEntries` keeps the last entry for a
duplicated key, hence the lookup over the reversed list.  A key with no own
property falls through to the prototype chain (`objectProtoLookup`); every
inherited `Object.prototype` member is truthy, so for those keys the
`|| '(missing)'` fallback never fires and the template literal stringifies
the inherited value instead. -/
def permLookup (options : List POption) (hid : String) : String :=
  match (options.map (fun o => (o.hashid, optText o))).reverse.find?
      (fun p => p.1 = hid) with
  | some p => if p.2 = "" then "(missing)" else p.2
  | none =>
    match objectProtoLookup hid with
    | some v => v
    | none => "(missing)"

/-- The `Permutation` branch (parser.mjs lines 234-260). -/
def renderPermutation (questionStatement : String) (options : List POption)
    (protectedOrder : List String) : String :=
  let prompt := if questionStatement = "" then "Reorder the following steps:"
    else questionStatement
  "### Reorder the Steps\n\n**" ++ prompt ++ "**\n\n" ++
  strJoin (options.map (fun o => "- " ++ optText o ++ "\n")) ++
  (if protectedOrder.length = 0 then "" else
    "\n<details>\n<summary> Solution</summary>\n\n" ++
    strJoin (protectedOrder.enum.map (fun p =>
      toString (p.1 + 1) ++ ". " ++ permLookup options p.2 ++ "\n")) ++
    "\n</details>\n")

/-- One collapsible file section of the `CodeTest` branch
(parser.mjs lines 275 and 283). -/
def ctFilePart (fileName lowLang code : String) : String :=
  "\n<details>\n<summary>" ++ fileName ++ "</summary>\n\n```" ++ lowLang ++
    "\n" ++ code ++ "\n```\n</details>\n"

/-- The `CodeTest` branch (parser.mjs lines 261-294), producing the fragment
that the branch pushes directly. -/
def renderCodeTest (c : CodeTestContent) : String :=
  "### CodeTest: " ++ c.caption ++ "\n" ++
  strJoin (c.languageContents.map (fun p =>
    (let lang := p.1
     let lb := p.2
     let mainFileName := if lb.mainFileName = "" then "main." ++ jsToLower lang
       else lb.mainFileName
     "\n#### Language: " ++ lang ++ "\n" ++
     (if lb.mainContent = "" then "" else
       ctFilePart mainFileName (jsToLower lang) lb.mainContent) ++
     strJoin ((((c.additionalFiles.find? (fun q => q.1 = lang)).map
         (fun q => q.2)).getD []).map (fun f =>
       if f.2 = "" then "" else ctFilePart f.1 (jsToLower lang) f.2))))) ++
  (if c.solutionContent = "" then "" else
    (let lang := if c.solutionLanguage = "" then "text" else c.solutionLanguage
     "\n<details>\n<summary>💡 Solution</summary>\n\n```" ++ jsToLower lang ++
       "\n" ++ c.solutionContent ++ "\n```\n</details>\n"))

/-!  ## Component dispatcher and document assembler -/

/-- One entry pushed onto `structuredContent`: the component's `type`
string, the fragment, and whether the push happened inside a renderer
branch (`direct = true`, parser.mjs lines 199 and 294) rather than through
the common trailing-newline step at the bottom of the loop (`direct =
false`, parser.mjs lines 300-301). -/
structure Push where
  ctype : String
  fragment : String
  direct : Bool
deriving DecidableEq

/-- The common trailing-newline step (parser.mjs line 300):
`if (!markdownContent.endsWith("\n")) markdownContent += "\n";` -/
def normalizeNL (s : String) : String :=
  if jsEndsWith "\n" s then s else s ++ "\n"

/-- One iteration of the dispatch loop (parser.mjs lines 92-302): the pushes
a single component contributes, or the error a `Quiz` without a `questions`
field raises from `quiz.questions.forEach`.  Dropped types `continue`
before the common push, so they contribute no entry at all. -/
def renderComponent (ext : ExtLibs) (x : Component) : Except String (List Push) :=
  match x with
  | .slateHTML html =>
    .ok [⟨"SlateHTML", normalizeNL (unescapeUnderscore (ext.td (ext.ckm html))), false⟩]
  | .tableHTML html =>
    .ok [⟨"TableHTML", normalizeNL (unescapeUnderscore (ext.td (ext.ckm html))), false⟩]
  | .latex text => .ok [⟨"Latex", normalizeNL (fixLatex text), false⟩]
  | .markdownEditor text => .ok [⟨"MarkdownEditor", normalizeNL text, false⟩]
  | .code language caption content solutionContent showSolution =>
    .ok [⟨"Code",
      normalizeNL (renderCode language caption content solutionContent showSolution),
      false⟩]
  | .promptAI => .ok []
  | .lazyLoadPlaceholder => .ok []
  | .notepad => .ok []
  | .drawIOWidget => .ok []
  | .columns comps => .ok [⟨"Columns", normalizeNL (renderColumns comps), false⟩]
  | .quiz title questions =>
    match questions with
    | none => .error "TypeError: quiz.questions is undefined"
    | some qs => .ok [⟨"Quiz", normalizeNL (renderQuizBody title qs), false⟩]
  | .webpackBin w =>
    .ok [⟨"WebpackBin", renderWebpackBin w, true⟩,
         ⟨"WebpackBin", normalizeNL "", false⟩]
  | .matchTheAnswers pairs =>
    .ok [⟨"MatchTheAnswers", normalizeNL (renderMatch pairs), false⟩]
  | .table data => .ok [⟨"Table", normalizeNL (renderTable ext.td data), false⟩]
  | .permutation questionStatement options protectedOrder =>
    .ok [⟨"Permutation",
      normalizeNL (renderPermutation questionStatement options protectedOrder),
      false⟩]
  | .codeTest c =>
    .ok [⟨"CodeTest", renderCodeTest c, true⟩, ⟨"CodeTest", normalizeNL "", false⟩]
  | .other ty => .ok [⟨ty, normalizeNL "", false⟩]

/-- The whole dispatch loop over the component list; a thrown error aborts
the iteration (and the surrounding render call) with no partial result. -/
def renderComponents (ext : ExtLibs) : List Component → Except String (List Push)
  | [] => .ok []
  | x :: xs =>
    match renderComponent ext x with
    | .error e => .error e
    | .ok ps =>
      match renderComponents ext xs with
      | .error e => .error e
      | .ok rest => .ok (ps ++ rest)

/-- The parsed JSON document: `summary.title`, `summary.description` and the
ordered component list. -/
structure LessonDoc where
  title : String
  description : String
  components : List Component

/-- The synthesized first fragment (parser.mjs lines 88-90):
`` const title = `# ${json.summary.title}\n`; const summary = `${json.summary.description}\n---\n`; ``
pushed as `title + summary`. -/
def titleFragment (d : LessonDoc) : String :=
  ("# " ++ d.title ++ "\n") ++ (d.description ++ "\n---\n")

/-- The ordered fragment list of one render call:
`structuredContent.map(item => item[1])`. -/
def renderFrags (ext : ExtLibs) (d : LessonDoc) : Except String (List String) :=
  (renderComponents ext d.components).map
    (fun ps => titleFragment d :: ps.map Push.fragment)

/-- The full render (parser.mjs line 304):
`structuredContent.map(item => item[1]).join('\n')`. -/
def renderDoc (ext : ExtLibs) (d : LessonDoc) : Except String String :=
  (renderFrags ext d).map (String.intercalate "\n")

/-- Insertion of an element at position `p` of a list (positions past the
end leave the list unchanged). -/
def insertAt {α : Type} (p : Nat) (a : α) (l : List α) : List α :=
  match p, l with
  | 0, l => a :: l
  | _ + 1, [] => []
  | n + 1, x :: xs => x :: insertAt n a xs

/-- A `Quiz` component whose content lacks the `questions` field. -/
def quizMissingQuestions : Component → Bool
  | .quiz _ none => true
  | _ => false

/-- The four dropped component types (parser.mjs lines 119-132), whose
branches `continue` without emitting any fragment. -/
def isDropped : Component → Bool
  | .promptAI => true
  | .lazyLoadPlaceholder => true
  | .notepad => true
  | .drawIOWidget => true
  | _ => false

/-- The identity instantiation of the external collaborators, used to
evaluate the model on concrete inputs. -/
def extId : ExtLibs := ⟨id, id⟩

/-- Spec §4.1 wording of claim C9, for comparison with `convertNode`:
display text resolved in priority order (a) the `equation` attribute on the
element itself, (b) the same attribute on a descendant, (c) the trimmed raw
text content. -/
def resolveKatexClaimed (attrs : List (String × String)) (cs : List Node) : String :=
  match getAttr "equation" attrs with
  | some v => v
  | none =>
    match findEqList cs with
    | some v => v
    | none => jsTrim (textContentList cs)

/-- Amended wording for claim C9, for comparison with `convertNode`: the
element's own attributes are never consulted; a non-empty `equation`
attribute value on the first descendant that carries the attribute wins,
otherwise the element's trimmed raw text content is used. -/
def resolveKatexAmended (cs : List Node) : String :=
  match findEqList cs with
  | some v => if v = "" then jsTrim (textContentList cs) else v
  | none => jsTrim (textContentList cs)

/-!  ## String and newline helper lemmas -/

theorem strData_append (a b : String) : (a ++ b).data = a.data ++ b.data := by
  cases a
  cases b
  rfl

theorem strAppend_empty (a : String) : a ++ "" = a := by
  cases a with
  | mk d =>
    show String.mk (d ++ []) = String.mk d
    rw [List.append_nil]

theorem strEmpty_append (a : String) : "" ++ a = a := by
  cases a with
  | mk d => rfl

theorem strAppend_assoc (a b c : String) : a ++ b ++ c = a ++ (b ++ c) := by
  cases a
  cases b
  cases c
  show String.mk _ = String.mk _
  rw [List.append_assoc]

theorem endsNL_append (a b : String) (h : jsEndsWith "\n" b = true) :
    jsEndsWith "\n" (a ++ b) = true := by
  simp only [jsEndsWith, decide_eq_true_eq] at h ⊢
  rw [strData_append]
  exact h.trans (List.suffix_append a.data b.data)

/-- A string that is either empty or newline-terminated; every piece that
a renderer conditionally appends has this property. -/
def okNL (s : String) : Prop := s = "" ∨ jsEndsWith "\n" s = true

theorem endsNL_append_okNL (a b : String) (ha : jsEndsWith "\n" a = true)
    (hb : okNL b) : jsEndsWith "\n" (a ++ b) = true := by
  cases hb with
  | inl h => rw [h, strAppend_empty]; exact ha
  | inr h => exact endsNL_append a b h

theorem okNL_strJoin (l : List String) (h : ∀ s ∈ l, okNL s) : okNL (strJoin l) := by
  induction l with
  | nil => exact Or.inl rfl
  | cons x xs ih =>
    have hx := h x (List.mem_cons_self x xs)
    have hxs := ih (fun s hs => h s (List.mem_cons_of_mem x hs))
    show okNL (x ++ strJoin xs)
    cases hx with
    | inl hx0 => rw [hx0, strEmpty_append]; exact hxs
    | inr hx1 =>
      cases hxs with
      | inl h0 => rw [h0, strAppend_empty]; exact Or.inr hx1
      | inr h1 => exact Or.inr (endsNL_append x _ h1)

theorem endsNL_normalizeNL (s : String) : jsEndsWith "\n" (normalizeNL s) = true := by
  unfold normalizeNL
  split
  · assumption
  · exact endsNL_append s "\n" (by decide)

theorem endsNL_titleFragment (d : LessonDoc) :
    jsEndsWith "\n" (titleFragment d) = true :=
  endsNL_append _ _ (endsNL_append _ _ (by decide))

theorem endsNL_binFilePart (f : BinFile) : jsEndsWith "\n" (binFilePart f) = true :=
  endsNL_append _ _ (by decide)

theorem endsNL_ctFilePart (a b c : String) :
    jsEndsWith "\n" (ctFilePart a b c) = true :=
  endsNL_append _ _ (by decide)

theorem endsNL_renderWebpackBin (w : WebpackContent) :
    jsEndsWith "\n" (renderWebpackBin w) = true := by
  unfold renderWebpackBin
  apply endsNL_append_okNL
  · apply endsNL_append_okNL
    · apply endsNL_append_okNL
      · apply endsNL_append_okNL
        · decide
        · cases w.loaders.find? (fun p => p.2.enabled) with
          | none => exact Or.inl rfl
          | some p => exact Or.inr (endsNL_append _ _ (by decide))
      · refine okNL_strJoin _ ?_
        intro s hs
        rcases List.mem_map.mp hs with ⟨f, _, rfl⟩
        exact Or.inr (endsNL_binFilePart f)
    · split
      · exact Or.inl rfl
      · exact Or.inr (endsNL_append _ _ (by decide))
  · split
    · exact Or.inl rfl
    · exact Or.inr (endsNL_append _ _ (by decide))

theorem endsNL_renderCodeTest (c : CodeTestContent) :
    jsEndsWith "\n" (renderCodeTest c) = true := by
  unfold renderCodeTest
  apply endsNL_append_okNL
  · apply endsNL_append_okNL
    · exact endsNL_append _ _ (by decide)
    · refine okNL_strJoin _ ?_
      intro s hs
      rcases List.mem_map.mp hs with ⟨p, _, rfl⟩
      refine Or.inr ?_
      apply endsNL_append_okNL
      · apply endsNL_append_okNL
        · exact endsNL_append _ _ (by decide)
        · split
          · exact Or.inl rfl
          · exact Or.inr (endsNL_ctFilePart _ _ _)
      · refine okNL_strJoin _ ?_
        intro s hs
        rcases List.mem_map.mp hs with ⟨f, _, rfl⟩
        split
        · exact Or.inl rfl
        · exact Or.inr (endsNL_ctFilePart _ _ _)
  · split
    · exact Or.inl rfl
    · exact Or.inr (endsNL_append _ _ (by decide))

/-!  ## Dispatcher-level lemmas -/

theorem renderComponents_cons (ext : ExtLibs) (x : Component) (xs : List Component) :
    renderComponents ext (x :: xs) =
      match renderComponent ext x with
      | .error e => .error e
      | .ok ps =>
        match renderComponents ext xs with
        | .error e => .error e
        | .ok rest => .ok (ps ++ rest) := rfl

theorem renderComponent_endsNL (ext : ExtLibs) (x : Component) (ps : List Push)
    (h : renderComponent ext x = .ok ps) :
    ∀ p ∈ ps, jsEndsWith "\n" p.fragment = true := by
  intro p hp
  cases x with
  | slateHTML html =>
    simp only [renderComponent, Except.ok.injEq] at h
    subst h
    simp only [List.mem_singleton] at hp
    subst hp
    exact endsNL_normalizeNL _
  | tableHTML html =>
    simp only [renderComponent, Except.ok.injEq] at h
    subst h
    simp only [List.mem_singleton] at hp
    subst hp
    exact endsNL_normalizeNL _
  | latex text =>
    simp only [renderComponent, Except.ok.injEq] at h
    subst h
    simp only [List.mem_singleton] at hp
    subst hp
    exact endsNL_normalizeNL _
  | markdownEditor text =>
    simp only [renderComponent, Except.ok.injEq] at h
    subst h
    simp only [List.mem_singleton] at hp
    subst hp
    exact endsNL_normalizeNL _
  | code language caption content solutionContent showSolution =>
    simp only [renderComponent, Except.ok.injEq] at h
    subst h
    simp only [List.mem_singleton] at hp
    subst hp
    exact endsNL_normalizeNL _
  | promptAI =>
    simp only [renderComponent, Except.ok.injEq] at h
    subst h
    simp at hp
  | lazyLoadPlaceholder =>
    simp only [renderComponent, Except.ok.injEq] at h
    subst h
    simp at hp
  | notepad =>
    simp only [renderComponent, Except.ok.injEq] at h
    subst h
    simp at hp
  | drawIOWidget =>
    simp only [renderComponent, Except.ok.injEq] at h
    subst h
    simp at hp
  | columns comps =>
    simp only [renderComponent, Except.ok.injEq] at h
    subst h
    simp only [List.mem_singleton] at hp
    subst hp
    exact endsNL_normalizeNL _
  | quiz title questions =>
    cases questions with
    | none => simp [renderComponent] at h
    | some qs =>
      simp only [renderComponent, Except.ok.injEq] at h
      subst h
      simp only [List.mem_singleton] at hp
      subst hp
      exact endsNL_normalizeNL _
  | webpackBin w =>
    simp only [renderComponent, Except.ok.injEq] at h
    subst h
    simp only [List.mem_cons, List.mem_singleton] at hp
    rcases hp with rfl | rfl | h
    · exact endsNL_renderWebpackBin w
    · exact endsNL_normalizeNL _
    · simp at h
  | matchTheAnswers pairs =>
    simp only [renderComponent, Except.ok.injEq] at h
    subst h
    simp only [List.mem_singleton] at hp
    subst hp
    exact endsNL_normalizeNL _
  | table data =>
    simp only [renderComponent, Except.ok.injEq] at h
    subst h
    simp only [List.mem_singleton] at hp
    subst hp
    exact endsNL_normalizeNL _
  | permutation questionStatement options protectedOrder =>
    simp only [renderComponent, Except.ok.injEq] at h
    subst h
    simp only [List.mem_singleton] at hp
    subst hp
    exact endsNL_normalizeNL _
  | codeTest c =>
    simp only [renderComponent, Except.ok.injEq] at h
    subst h
    simp only [List.mem_cons, List.mem_singleton] at hp
    rcases hp with rfl | rfl | h
    · exact endsNL_renderCodeTest c
    · exact endsNL_normalizeNL _
    · simp at h
  | other ty =>
    simp only [renderComponent, Except.ok.injEq] at h
    subst h
    simp only [List.mem_singleton] at hp
    subst hp
    exact endsNL_normalizeNL _

theorem renderComponents_endsNL (ext : ExtLibs) :
    ∀ (cs : List Component) (ps : List Push),
      renderComponents ext cs = .ok ps →
      ∀ p ∈ ps, jsEndsWith "\n" p.fragment = true := by
  intro cs
  induction cs with
  | nil =>
    intro ps h p hp
    simp only [renderComponents, Except.ok.injEq] at h
    subst h
    simp at hp
  | cons x xs ih =>
    intro ps h p hp
    rw [renderComponents_cons] at h
    cases h1 : renderComponent ext x with
    | error e => rw [h1] at h; simp at h
    | ok ps1 =>
      rw [h1] at h
      cases h2 : renderComponents ext xs with
      | error e => rw [h2] at h; simp at h
      | ok ps2 =>
        rw [h2] at h
        simp only [Except.ok.injEq] at h
        subst h
        rcases List.mem_append.mp hp with hp1 | hp2
        · exact renderComponent_endsNL ext x ps1 h1 p hp1
        · exact ih ps2 h2 p hp2

theorem renderComponent_dropped (ext : ExtLibs) (c : Component)
    (h : isDropped c = true) : renderComponent ext c = .ok [] := by
  cases c <;> first | rfl | simp [isDropped] at h

theorem renderComponent_error_of_missing (ext : ExtLibs) (x : Component)
    (h : quizMissingQuestions x = true) :
    renderComponent ext x = .error "TypeError: quiz.questions is undefined" := by
  cases x <;> try (simp [quizMissingQuestions] at h)
  case quiz title questions =>
    cases questions with
    | none => rfl
    | some qs => simp [quizMissingQuestions] at h

theorem renderComponent_ok_of_not_missing (ext : ExtLibs) (x : Component)
    (h : quizMissingQuestions x = false) :
    ∃ ps, renderComponent ext x = .ok ps := by
  cases x <;> try exact ⟨_, rfl⟩
  case quiz title questions =>
    cases questions with
    | none => simp [quizMissingQuestions] at h
    | some qs => exact ⟨_, rfl⟩

theorem renderComponents_error_of_missing (ext : ExtLibs) :
    ∀ cs : List Component, (∃ c ∈ cs, quizMissingQuestions c = true) →
      ∃ e, renderComponents ext cs = .error e := by
  intro cs
  induction cs with
  | nil =>
    rintro ⟨c, hc, _⟩
    exact absurd hc (List.not_mem_nil c)
  | cons x xs ih =>
    rintro ⟨c, hc, hm⟩
    by_cases hx : quizMissingQuestions x = true
    · refine ⟨"TypeError: quiz.questions is undefined", ?_⟩
      rw [renderComponents_cons, renderComponent_error_of_missing ext x hx]
    · have hx' : quizMissingQuestions x = false := by
        cases hq : quizMissingQuestions x with
        | false => rfl
        | true => exact absurd hq hx
      rcases List.mem_cons.mp hc with rfl | hc'
      · exact absurd hm hx
      · obtain ⟨e, he⟩ := ih ⟨c, hc', hm⟩
        obtain ⟨ps, hps⟩ := renderComponent_ok_of_not_missing ext x hx'
        refine ⟨e, ?_⟩
        rw [renderComponents_cons, hps, he]

theorem renderComponents_ok_of_none_missing (ext : ExtLibs) :
    ∀ cs : List Component, (∀ c ∈ cs, quizMissingQuestions c = false) →
      ∃ ps, renderComponents ext cs = .ok ps := by
  intro cs
  induction cs with
  | nil => exact fun _ => ⟨[], rfl⟩
  | cons x xs ih =>
    intro h
    obtain ⟨ps1, h1⟩ :=
      renderComponent_ok_of_not_missing ext x (h x (List.mem_cons_self x xs))
    obtain ⟨ps2, h2⟩ := ih (fun c hc => h c (List.mem_cons_of_mem x hc))
    refine ⟨ps1 ++ ps2, ?_⟩
    rw [renderComponents_cons, h1, h2]

theorem renderComponents_insertAt_other (ext : ExtLibs) (ty : String) :
    ∀ (cs : List Component) (p : Nat), p ≤ cs.length →
      ∀ ps, renderComponents ext cs = .ok ps →
        ∃ l₁ l₂, ps = l₁ ++ l₂ ∧
          renderComponents ext (insertAt p (.other ty) cs) =
            .ok (l₁ ++ ⟨ty, "\n", false⟩ :: l₂) := by
  intro cs
  induction cs with
  | nil =>
    intro p hp ps h
    have hp0 : p = 0 := Nat.le_zero.mp hp
    subst hp0
    simp only [renderComponents, Except.ok.injEq] at h
    subst h
    exact ⟨[], [], rfl, rfl⟩
  | cons x xs ih =>
    intro p hp ps h
    cases p with
    | zero =>
      refine ⟨[], ps, rfl, ?_⟩
      have hstep : renderComponents ext (Component.other ty :: x :: xs) =
          match renderComponents ext (x :: xs) with
          | .error e => .error e
          | .ok rest => .ok (⟨ty, "\n", false⟩ :: rest) := rfl
      show renderComponents ext (Component.other ty :: x :: xs) = _
      rw [hstep, h]
      rfl
    | succ n =>
      rw [renderComponents_cons] at h
      cases h1 : renderComponent ext x with
      | error e => rw [h1] at h; simp at h
      | ok ps1 =>
        rw [h1] at h
        cases h2 : renderComponents ext xs with
        | error e => rw [h2] at h; simp at h
        | ok ps2 =>
          rw [h2] at h
          simp only [Except.ok.injEq] at h
          obtain ⟨l₁, l₂, hsplit, hins⟩ :=
            ih n (Nat.le_of_succ_le_succ hp) ps2 h2
          refine ⟨ps1 ++ l₁, l₂, ?_, ?_⟩
          · rw [← h, hsplit, List.append_assoc]
          · show renderComponents ext (x :: insertAt n (.other ty) xs) = _
            rw [renderComponents_cons, h1, hins, List.append_assoc]

theorem renderComponents_insertAt_dropped (ext : ExtLibs) (c : Component)
    (h : isDropped c = true) :
    ∀ (cs : List Component) (p : Nat),
      renderComponents ext (insertAt p c cs) = renderComponents ext cs := by
  intro cs
  induction cs with
  | nil =>
    intro p
    cases p with
    | zero =>
      show renderComponents ext [c] = renderComponents ext []
      rw [renderComponents_cons, renderComponent_dropped ext c h]
      rfl
    | succ n => rfl
  | cons x xs ih =>
    intro p
    cases p with
    | zero =>
      show renderComponents ext (c :: x :: xs) = _
      rw [renderComponents_cons, renderComponent_dropped ext c h]
      cases h2 : renderComponents ext (x :: xs) with
      | error e => rfl
      | ok rest => simp
    | succ n =>
      show renderComponents ext (x :: insertAt n c xs) = _
      rw [renderComponents_cons, renderComponents_cons, ih n]

/-!  ## Auxiliary lemmas for the Latex renderer -/

theorem flatMap_replace_self (c : Char) :
    ∀ d : List Char, d.flatMap (fun ch => if ch = c then [c] else [ch]) = d := by
  intro d
  induction d with
  | nil => rfl
  | cons x xs ih =>
    show (if x = c then [c] else [x]) ++ xs.flatMap _ = x :: xs
    by_cases hx : x = c
    · rw [if_pos hx, ih, hx]
      rfl
    · rw [if_neg hx, ih]
      rfl

theorem flatMap_removeNL :
    ∀ d : List Char, d.flatMap (fun ch => if ch = '\n' then [] else [ch]) =
      d.filter (fun ch => ch != '\n') := by
  intro d
  induction d with
  | nil => rfl
  | cons x xs ih =>
    show (if x = '\n' then [] else [x]) ++ xs.flatMap _ = _
    by_cases hx : x = '\n'
    · rw [if_pos hx, ih]
      subst hx
      simp [List.filter_cons]
    · rw [if_neg hx, ih]
      simp [List.filter_cons, hx]

theorem jsReplaceChar_self (c : Char) (s : String) : jsReplaceChar c [c] s = s := by
  cases s with
  | mk d => exact congrArg String.mk (flatMap_replace_self c d)

/-!  ## Claims -/

/-- Claim C5: a `Code` fragment consists of the learner part (optional bold
caption, fenced block with the trimmed learner code) followed by the
collapsible "Solution" section (fenced block with the trimmed solution code)
exactly when `showSolution` is true and the trimmed `solutionContent` is
non-empty; otherwise the fragment is the learner part alone, so no
"Solution" section appears when `showSolution` is false, regardless of
`solutionContent`. -/
theorem claim_C5 (language caption content solutionContent : String)
    (showSolution : Bool) :
    (showSolution = true ∧ jsTrim solutionContent ≠ "" →
      renderCode language caption content solutionContent showSolution =
        codeLearnerPart language caption content ++
          codeSolutionPart language solutionContent) ∧
    (¬(showSolution = true ∧ jsTrim solutionContent ≠ "") →
      renderCode language caption content solutionContent showSolution =
        codeLearnerPart language caption content) := by
  constructor
  · intro h
    simp only [renderCode, codeLearnerPart, codeSolutionPart]
    rw [if_pos h]
    exact strAppend_assoc _ _ _
  · intro h
    simp only [renderCode, codeLearnerPart, codeSolutionPart]
    rw [if_neg h]

/-- Claim C5 witness: concrete `Code` component with `showSolution = true`
and non-empty solution. -/
theorem claim_C5_wit :
    renderCode "py" "" "a" "b" true =
      codeLearnerPart "py" "" "a" ++ codeSolutionPart "py" "b" :=
  (claim_C5 "py" "" "a" "b" true).1 ⟨rfl, by decide⟩

/-- Claim C6 counterexample: the answer-key entry `"toString"` matches no
option, yet the rendered line is not the literal `(missing)`: the JS
property read `idToTextMap["toString"]` reaches the inherited
`Object.prototype.toString` function through the prototype chain, which is
truthy, so the `|| '(missing)'` fallback never fires and the template
literal stringifies the inherited function instead. -/
theorem claim_C6_cex :
    (∀ o ∈ [POption.mk "a" "Step1"], o.hashid ≠ "toString") ∧
    permLookup [POption.mk "a" "Step1"] "toString" =
      "function toString() \x7b [native code] \x7d" ∧
    permLookup [POption.mk "a" "Step1"] "toString" ≠ "(missing)" := by
  refine ⟨by decide, by decide, by decide⟩

/-- Claim C6 (amended): the `Permutation` renderer lists option bullets in
input order and the Solution list in answer-key order with 1-based
positions (the concrete case of the claim, as a full-fragment equality);
an answer-key entry whose hashid matches no option renders as the literal
`(missing)` provided the hashid is not the name of an `Object.prototype`
member — for those names the inherited value's stringification appears
instead (see `claim_C6_cex`). -/
theorem claim_C6 :
    (renderPermutation "" [⟨"a", "Step1"⟩, ⟨"b", "Step2"⟩] ["b", "a"] =
      "### Reorder the Steps\n\n**Reorder the following steps:**\n\n- Step1\n- Step2\n" ++
      "\n<details>\n<summary> Solution</summary>\n\n1. Step2\n2. Step1\n\n</details>\n") ∧
    (∀ (options : List POption) (hid : String),
      (∀ o ∈ options, o.hashid ≠ hid) → objectProtoLookup hid = none →
        permLookup options hid = "(missing)") := by
  constructor
  · decide
  · intro options hid h hproto
    unfold permLookup
    have hnone : (options.map (fun o => (o.hashid, optText o))).reverse.find?
        (fun p => p.1 = hid) = none := by
      rw [List.find?_eq_none]
      intro p hp
      rw [List.mem_reverse] at hp
      rcases List.mem_map.mp hp with ⟨o, ho, rfl⟩
      simp only [decide_eq_true_eq]
      exact h o ho
    rw [hnone, hproto]

/-- Claim C6 witness: a key entry referencing an absent hashid that is not
an `Object.prototype` member name. -/
theorem claim_C6_wit : permLookup [⟨"a", "Step1"⟩] "zz" = "(missing)" :=
  claim_C6.2 [⟨"a", "Step1"⟩] "zz" (by decide) (by decide)

/-- Claim C7: the `Table` renderer on the two-row matrix
`[["A","B"],["1","2"]]` (with the external cell conversion behaving as the
identity on these plain-text cells) produces exactly
`"| A | B |\n| --- | --- |\n| 1 | 2 |\n"`, and an empty matrix produces the
empty fragment. -/
theorem claim_C7 (td : String → String) (hA : td "A" = "A") (hB : td "B" = "B")
    (h1 : td "1" = "1") (h2 : td "2" = "2") :
    renderTable td [["A", "B"], ["1", "2"]] =
      "| A | B |\n| --- | --- |\n| 1 | 2 |\n" ∧
    renderTable td [] = "" := by
  refine ⟨?_, rfl⟩
  simp only [renderTable, List.map_cons, List.map_nil, hA, hB, h1, h2]
  decide

/-- Claim C7 witness: the identity conversion instantiation. -/
theorem claim_C7_wit :
    renderTable id [["A", "B"], ["1", "2"]] =
      "| A | B |\n| --- | --- |\n| 1 | 2 |\n" ∧
    renderTable id [] = "" :=
  claim_C7 id rfl rfl rfl rfl

/-- Claim C8: for every input text, `fixLatex` yields `$$`, the text with
all newlines removed, `$$` and a trailing newline; the
backslash-to-backslash substitution is the identity on every input, so
backslashes are preserved verbatim. -/
theorem claim_C8 (text : String) :
    fixLatex text =
      "$$" ++ String.mk (text.data.filter (fun ch => ch != '\n')) ++ "$$\n" ∧
    jsReplaceChar '\\' ['\\'] text = text := by
  have hid : jsReplaceChar '\\' ['\\'] text = text := jsReplaceChar_self '\\' text
  refine ⟨?_, hid⟩
  unfold fixLatex
  rw [hid]
  have h2 : jsReplaceChar '\n' [] text =
      String.mk (text.data.filter (fun ch => ch != '\n')) :=
    congrArg String.mk (flatMap_removeNL text.data)
  rw [h2]

/-- Claim C1 counterexample: a `CodeTest` component — whose type is not
`WebpackBin` — also pushes its rendered fragment directly inside its branch,
bypassing the common trailing-newline normalization step, so `WebpackBin`
is not the only such type. -/
theorem claim_C1_cex :
    Component.ctype (.codeTest ⟨"", [], [], "", ""⟩) ≠ "WebpackBin" ∧
    renderComponent extId (.codeTest ⟨"", [], [], "", ""⟩) =
      .ok [⟨"CodeTest", "### CodeTest: \n", true⟩, ⟨"CodeTest", "\n", false⟩] :=
  ⟨by decide, rfl⟩

/-- Claim C1 (amended): `WebpackBin` and `CodeTest` are the only two
component types whose rendered fragments are pushed to the output list
directly, bypassing the common trailing-newline normalization; every
fragment of a component of any other type goes through the common step. -/
theorem claim_C1 (ext : ExtLibs) :
    (∀ (x : Component) (ps : List Push), renderComponent ext x = .ok ps →
      Component.ctype x ≠ "WebpackBin" → Component.ctype x ≠ "CodeTest" →
      ∀ p ∈ ps, p.direct = false) ∧
    (∀ w : WebpackContent, ∃ ps, renderComponent ext (.webpackBin w) = .ok ps ∧
      ∃ p ∈ ps, p.direct = true) ∧
    (∀ c : CodeTestContent, ∃ ps, renderComponent ext (.codeTest c) = .ok ps ∧
      ∃ p ∈ ps, p.direct = true) := by
  refine ⟨?_, ?_, ?_⟩
  · intro x ps h hW hC p hp
    cases x with
    | webpackBin w => exact absurd rfl hW
    | codeTest c => exact absurd rfl hC
    | quiz title questions =>
      cases questions with
      | none => simp [renderComponent] at h
      | some qs =>
        simp only [renderComponent, Except.ok.injEq] at h
        subst h
        simp only [List.mem_singleton] at hp
        subst hp
        rfl
    | slateHTML a =>
      simp only [renderComponent, Except.ok.injEq] at h
      subst h
      simp only [List.mem_singleton] at hp
      subst hp
      rfl
    | tableHTML a =>
      simp only [renderComponent, Except.ok.injEq] at h
      subst h
      simp only [List.mem_singleton] at hp
      subst hp
      rfl
    | latex a =>
      simp only [renderComponent, Except.ok.injEq] at h
      subst h
      simp only [List.mem_singleton] at hp
      subst hp
      rfl
    | markdownEditor a =>
      simp only [renderComponent, Except.ok.injEq] at h
      subst h
      simp only [List.mem_singleton] at hp
      subst hp
      rfl
    | code a b c d e =>
      simp only [renderComponent, Except.ok.injEq] at h
      subst h
      simp only [List.mem_singleton] at hp
      subst hp
      rfl
    | columns a =>
      simp only [renderComponent, Except.ok.injEq] at h
      subst h
      simp only [List.mem_singleton] at hp
      subst hp
      rfl
    | matchTheAnswers a =>
      simp only [renderComponent, Except.ok.injEq] at h
      subst h
      simp only [List.mem_singleton] at hp
      subst hp
      rfl
    | table a =>
      simp only [renderComponent, Except.ok.injEq] at h
      subst h
      simp only [List.mem_singleton] at hp
      subst hp
      rfl
    | permutation a b c =>
      simp only [renderComponent, Except.ok.injEq] at h
      subst h
      simp only [List.mem_singleton] at hp
      subst hp
      rfl
    | other a =>
      simp only [renderComponent, Except.ok.injEq] at h
      subst h
      simp only [List.mem_singleton] at hp
      subst hp
      rfl
    | promptAI =>
      simp only [renderComponent, Except.ok.injEq] at h
      subst h
      simp at hp
    | lazyLoadPlaceholder =>
      simp only [renderComponent, Except.ok.injEq] at h
      subst h
      simp at hp
    | notepad =>
      simp only [renderComponent, Except.ok.injEq] at h
      subst h
      simp at hp
    | drawIOWidget =>
      simp only [renderComponent, Except.ok.injEq] at h
      subst h
      simp at hp
  · intro w
    exact ⟨_, rfl, ⟨"WebpackBin", renderWebpackBin w, true⟩,
      List.mem_cons_self _ _, rfl⟩
  · intro c
    exact ⟨_, rfl, ⟨"CodeTest", renderCodeTest c, true⟩,
      List.mem_cons_self _ _, rfl⟩

/-- Claim C1 witness: a `MarkdownEditor` fragment goes through the common
normalization push. -/
theorem claim_C1_wit :
    ∀ p ∈ [Push.mk "MarkdownEditor" (normalizeNL "hi") false], p.direct = false :=
  (claim_C1 extId).1 (.markdownEditor "hi") _ rfl (by decide) (by decide)

/-- Claim C2 counterexample: the fragment of a `Quiz` component (pushed
through the common normalization step, so not a pre-emitted WebpackBin
fragment) ends in two newline characters, refuting "ends in exactly one
newline". -/
theorem claim_C2_cex :
    renderFrags extId ⟨"T", "D", [.quiz none (some [])]⟩ =
      .ok ["# T\nD\n---\n", "### Quiz: \n\n"] ∧
    renderComponent extId (.quiz none (some [])) =
      .ok [⟨"Quiz", "### Quiz: \n\n", false⟩] ∧
    jsEndsWith "\n\n" "### Quiz: \n\n" = true :=
  ⟨rfl, rfl, by decide⟩

/-- Claim C2 (amended): every fragment emitted into the output list — the
synthesized title fragment, every normalized fragment, and the directly
pushed WebpackBin and CodeTest fragments — ends with at least one newline
character (the original "exactly one" fails on fragments that end in a
blank line, e.g. Quiz fragments). -/
theorem claim_C2 (ext : ExtLibs) (d : LessonDoc) (frags : List String)
    (h : renderFrags ext d = .ok frags) :
    ∀ f ∈ frags, jsEndsWith "\n" f = true := by
  intro f hf
  unfold renderFrags at h
  cases hc : renderComponents ext d.components with
  | error e =>
    rw [hc] at h
    simp [Except.map] at h
  | ok ps =>
    rw [hc] at h
    simp only [Except.map, Except.ok.injEq] at h
    subst h
    rcases List.mem_cons.mp hf with rfl | hf'
    · exact endsNL_titleFragment d
    · rcases List.mem_map.mp hf' with ⟨p, hp, rfl⟩
      exact renderComponents_endsNL ext d.components ps hc p hp

/-- Claim C2 witness: the title fragment of a rendered document. -/
theorem claim_C2_wit : jsEndsWith "\n" "# T\nD\n---\n" = true :=
  claim_C2 extId ⟨"T", "D", []⟩ ["# T\nD\n---\n"] rfl "# T\nD\n---\n"
    (List.mem_singleton.mpr rfl)

/-- Claim C3: every WebpackBin and every CodeTest component contributes
exactly two entries to the output list: first its rendered fragment, pushed
directly in the branch, then the single-newline fragment produced by the
common normalization step from the still-empty markdownContent variable. -/
theorem claim_C3 (ext : ExtLibs) (w : WebpackContent) (c : CodeTestContent) :
    renderComponent ext (.webpackBin w) =
      .ok [⟨"WebpackBin", renderWebpackBin w, true⟩, ⟨"WebpackBin", "\n", false⟩] ∧
    renderComponent ext (.codeTest c) =
      .ok [⟨"CodeTest", renderCodeTest c, true⟩, ⟨"CodeTest", "\n", false⟩] :=
  ⟨rfl, rfl⟩

/-- Claim C4: inserting a component of an unrecognized type at any position
`p` of the component list adds exactly one single-newline fragment to the
output list at the corresponding place (one extra blank line in the joined
document), while inserting a component of a dropped type (`PromptAI`,
`LazyLoadPlaceholder`, `Notepad`, `DrawIOWidget`) leaves the rendered
document byte-identical. -/
theorem claim_C4 (ext : ExtLibs) (t desc : String) (cs : List Component)
    (p : Nat) (ty : String) (c : Component) (s : String)
    (_hty : ty ∉ handledTypes) (hp : p ≤ cs.length) (hc : isDropped c = true)
    (hs : renderDoc ext ⟨t, desc, cs⟩ = .ok s) :
    (∃ l₁ l₂,
      renderFrags ext ⟨t, desc, cs⟩ = .ok (l₁ ++ l₂) ∧
      renderFrags ext ⟨t, desc, insertAt p (.other ty) cs⟩ =
        .ok (l₁ ++ "\n" :: l₂) ∧
      renderDoc ext ⟨t, desc, insertAt p (.other ty) cs⟩ =
        .ok (String.intercalate "\n" (l₁ ++ "\n" :: l₂))) ∧
    renderDoc ext ⟨t, desc, insertAt p c cs⟩ = .ok s := by
  cases hcomp : renderComponents ext cs with
  | error e =>
    exfalso
    unfold renderDoc renderFrags at hs
    dsimp only at hs
    rw [hcomp] at hs
    exact absurd hs (by simp [Except.map])
  | ok ps =>
    refine ⟨?_, ?_⟩
    · obtain ⟨l₁, l₂, hsplit, hins⟩ :=
        renderComponents_insertAt_other ext ty cs p hp ps hcomp
      refine ⟨titleFragment ⟨t, desc, cs⟩ :: l₁.map Push.fragment,
        l₂.map Push.fragment, ?_, ?_, ?_⟩
      · unfold renderFrags
        dsimp only
        rw [hcomp, hsplit]
        simp [Except.map, List.map_append, titleFragment]
      · unfold renderFrags
        dsimp only
        rw [hins]
        simp [Except.map, List.map_append, titleFragment]
      · unfold renderDoc renderFrags
        dsimp only
        rw [hins]
        simp [Except.map, List.map_append, titleFragment]
    · have heq := renderComponents_insertAt_dropped ext c hc cs p
      unfold renderDoc renderFrags at hs ⊢
      dsimp only at hs ⊢
      rw [heq]
      exact hs

/-- Claim C4 witness: inserting `Notepad` into the empty component list at
position 0 leaves the rendered document unchanged. -/
theorem claim_C4_wit :
    renderDoc extId ⟨"T", "D", insertAt 0 Component.notepad []⟩ =
      .ok "# T\nD\n---\n" :=
  (claim_C4 extId "T" "D" [] 0 "Foo" Component.notepad "# T\nD\n---\n"
    (by decide) (by decide) rfl rfl).2

/-- Claim C9 counterexample: a katex element carrying the `equation`
attribute itself (with no descendant carrying one) is replaced using its
text content, not its own attribute: the claimed priority (a) — the
attribute on the element itself — is never consulted by the code. -/
theorem claim_C9_cex :
    convertNode (.elem "katex" [("equation", "E")] [.text "T"]) = .text "$T$" ∧
    "$" ++ resolveKatexClaimed [("equation", "E")] [.text "T"] ++ "$" = "$E$" ∧
    ("$T$" : String) ≠ "$E$" :=
  ⟨rfl, rfl, by decide⟩

/-- Claim C9 (amended): each katex element is replaced by `$t$` where `t`
is the non-empty `equation` attribute value of the first descendant element
carrying the attribute, and otherwise the element's trimmed raw text
content; the element's own attributes are never consulted, and an empty or
missing container collapses to the literal `$$`. -/
theorem claim_C9 (attrs : List (String × String)) (cs : List Node) :
    convertNode (.elem "katex" attrs cs) =
      .text ("$" ++ resolveKatexAmended cs ++ "$") ∧
    (findEqList cs = none → jsTrim (textContentList cs) = "" →
      convertNode (.elem "katex" attrs cs) = .text "$$") := by
  have h1 : convertNode (.elem "katex" attrs cs) =
      .text ("$" ++ resolveKatexAmended cs ++ "$") := by
    simp [convertNode, resolveKatexAmended]
  refine ⟨h1, fun hn he => ?_⟩
  rw [h1]
  unfold resolveKatexAmended
  rw [hn, he, strAppend_empty]
  rfl

/-- Claim C9 witness: the empty katex container collapses to `$$`. -/
theorem claim_C9_wit : convertNode (.elem "katex" [] []) = .text "$$" :=
  (claim_C9 [] []).2 rfl rfl

/-- Claim C10: a document containing a Quiz component whose content lacks
the `questions` field renders to a fatal error — no partial document is
returned — whereas any document whose Quiz components all carry `questions`
(degenerate-but-valid inputs, e.g. a quiz with a missing title) renders to
a success value. -/
theorem claim_C10 (ext : ExtLibs) (t desc : String) (cs : List Component) :
    ((∃ c ∈ cs, quizMissingQuestions c = true) →
      ∃ e, renderDoc ext ⟨t, desc, cs⟩ = .error e) ∧
    ((∀ c ∈ cs, quizMissingQuestions c = false) →
      ∃ s, renderDoc ext ⟨t, desc, cs⟩ = .ok s) := by
  constructor
  · intro h
    obtain ⟨e, he⟩ := renderComponents_error_of_missing ext cs h
    refine ⟨e, ?_⟩
    unfold renderDoc renderFrags
    dsimp only
    rw [he]
    rfl
  · intro h
    obtain ⟨ps, hps⟩ := renderComponents_ok_of_none_missing ext cs h
    refine ⟨String.intercalate "\n"
      (titleFragment ⟨t, desc, cs⟩ :: ps.map Push.fragment), ?_⟩
    unfold renderDoc renderFrags
    dsimp only
    rw [hps]
    rfl

/-- Claim C10 witness: a document with a Quiz lacking `questions` (and a
missing title) fails; its title being absent plays no role. -/
theorem claim_C10_wit :
    ∃ e, renderDoc extId ⟨"T", "D", [.quiz none none]⟩ = .error e :=
  (claim_C10 extId "T" "D" [.quiz none none]).1
    ⟨.quiz none none, List.mem_singleton.mpr rfl, rfl⟩
